import Mathlib

/-!
Shallow embedding of the `prompt-go-mcp` repository's core logic:

* `packages/core/roi/cost_models.py`        — `DEFAULT`, `estimate`
* `packages/core/routing/signals.py`        — `has`, `FRESH_WORDS`, `COMPLEX_VERBS`, `AMBIGUOUS`
* `packages/core/routing/router.py`         — `score`, `explain`
* `packages/core/analytics/aggregator.py`   — `summarize`
* `packages/core/learning/adaptive_router.py` — `_update_route_weights`,
  `record_feedback`, `_apply_keyword_learning`
* `packages/core/policy/budget_manager.py`  — `apply_budget_enforcement`

Python floats are modelled by `ℚ` (exact arithmetic) except where a claim is
about the post-sigmoid value, where `ℝ` is used; Python strings by `String`
or `List Char`; Python dicts by insertion-ordered association lists
`List (String × β)` with `alookup` modelling `dict.get` / `dict.__getitem__`.
-/

set_option maxRecDepth 2000

namespace PromptGo

/-- Lookup in an insertion-ordered association list: the model of a Python
`dict` access (first matching key; Python dicts have unique keys, matching
the `Nodup` hypotheses used below). -/
def alookup {β : Type} (k : String) : List (String × β) → Option β
  | [] => none
  | (a, b) :: rest => if a = k then some b else alookup k rest

/-- Python `l[-n:]`: the suffix of the last `n` elements. -/
def takeLast {α : Type} (n : Nat) (l : List α) : List α :=
  l.drop (l.length - n)

/- ### `packages/core/roi/cost_models.py` -/

/-- The `DEFAULT` per-1000-token USD rate table of `cost_models.py`,
entries as (in-rate, out-rate). -/
def DEFAULT : List (String × ℚ × ℚ) :=
  [ ("openai/gpt-4o-mini", (0.15, 0.60)),
    ("openai/gpt-4o", (2.50, 10.00)),
    ("openai/gpt-3.5-turbo", (0.50, 1.50)),
    ("anthropic/claude-3-haiku", (0.25, 1.25)),
    ("local/tiny-llama", (0.00, 0.00)) ]

/-- Function `estimate(tokens_in, tokens_out, model, costs)`:
`c = costs.get(model) or {"in": 0.0, "out": 0.0}` (a present rate entry is a
non-empty dict, hence truthy, so `or` only fires when the model is absent);
result `(tokens_in / 1000) * c["in"] + (tokens_out / 1000) * c["out"]`. -/
def estimate (tokens_in tokens_out : ℕ) (model : String)
    (costs : List (String × ℚ × ℚ)) : ℚ :=
  let c := (alookup model costs).getD (0, 0)
  (tokens_in / 1000 : ℚ) * c.1 + (tokens_out / 1000 : ℚ) * c.2

/- ### `AdaptiveRouter.record_feedback` (`adaptive_router.py`) -/

/-- One feedback event, as passed to `record_feedback`.  The entry appended
to the pattern logs carries these fields (plus a timestamp and a prompt
hash that no claim depends on). -/
structure FeedbackEvent where
  suggested : String
  actual : String
  outcome : String
  deriving DecidableEq, Repr

/-- The pattern-log part of the persisted state: the
`successful_patterns` and `failed_patterns` lists. -/
structure PatternLogs where
  successful_patterns : List FeedbackEvent
  failed_patterns : List FeedbackEvent
  deriving DecidableEq, Repr

/-- Method `record_feedback`: `if outcome == "good" and suggested_route ==
actual_route:` append to `successful_patterns`; `elif outcome == "bad":`
append to `failed_patterns`; then trim both logs to their last 1000
entries (`[-1000:]`). -/
def recordFeedback (st : PatternLogs) (e : FeedbackEvent) : PatternLogs :=
  if e.outcome = "good" ∧ e.suggested = e.actual then
    ⟨takeLast 1000 (st.successful_patterns ++ [e]),
     takeLast 1000 st.failed_patterns⟩
  else if e.outcome = "bad" then
    ⟨takeLast 1000 st.successful_patterns,
     takeLast 1000 (st.failed_patterns ++ [e])⟩
  else
    ⟨takeLast 1000 st.successful_patterns,
     takeLast 1000 st.failed_patterns⟩

/-- Folding `record_feedback` over a sequence of events from the default
(empty) pattern state. -/
def runFeedback (events : List FeedbackEvent) : PatternLogs :=
  events.foldl recordFeedback ⟨[], []⟩

/-- An event that `record_feedback` appends to `successful_patterns`. -/
def isGoodMatch (e : FeedbackEvent) : Bool :=
  e.outcome == "good" && e.suggested == e.actual

/-- An event that `record_feedback` appends to `failed_patterns`. -/
def isBadOutcome (e : FeedbackEvent) : Bool :=
  !(isGoodMatch e) && e.outcome == "bad"

theorem isGoodMatch_iff (e : FeedbackEvent) :
    isGoodMatch e = true ↔ (e.outcome = "good" ∧ e.suggested = e.actual) := by
  simp [isGoodMatch]

/- ### helper lemmas on `takeLast` -/

theorem takeLast_nil {α : Type} (n : Nat) : takeLast n ([] : List α) = [] := by
  unfold takeLast
  simp

theorem takeLast_length_le {α : Type} (n : Nat) (l : List α) :
    (takeLast n l).length ≤ n := by
  simp only [takeLast, List.length_drop]
  omega

theorem takeLast_of_length_le {α : Type} {n : Nat} {l : List α}
    (h : l.length ≤ n) : takeLast n l = l := by
  simp only [takeLast]
  rw [Nat.sub_eq_zero_of_le h, List.drop_zero]

theorem takeLast_takeLast {α : Type} {m n : Nat} (h : m ≤ n) (l : List α) :
    takeLast m (takeLast n l) = takeLast m l := by
  unfold takeLast
  rw [List.length_drop, List.drop_drop]
  congr 1
  omega

theorem takeLast_append_one {α : Type} {n : Nat} (hn : 1 ≤ n)
    (l : List α) (x : α) :
    takeLast n (l ++ [x]) = takeLast (n - 1) l ++ [x] := by
  unfold takeLast
  rw [List.length_append, List.length_cons, List.length_nil]
  rw [show l.length + (0 + 1) - n = l.length - (n - 1) by omega]
  exact List.drop_append_of_le_length (by omega)

theorem takeLast_append_takeLast {α : Type} {n : Nat} (hn : 1 ≤ n)
    (l : List α) (x : α) :
    takeLast n (takeLast n l ++ [x]) = takeLast n (l ++ [x]) := by
  rw [takeLast_append_one hn, takeLast_append_one hn,
    takeLast_takeLast (Nat.sub_le n 1)]

attribute [irreducible] takeLast

theorem recordFeedback_good (A B : List FeedbackEvent) (e : FeedbackEvent)
    (hg : e.outcome = "good" ∧ e.suggested = e.actual) :
    recordFeedback ⟨A, B⟩ e = ⟨takeLast 1000 (A ++ [e]), takeLast 1000 B⟩ := by
  simp only [recordFeedback, if_pos hg]

theorem recordFeedback_bad (A B : List FeedbackEvent) (e : FeedbackEvent)
    (hg : ¬ (e.outcome = "good" ∧ e.suggested = e.actual))
    (hb : e.outcome = "bad") :
    recordFeedback ⟨A, B⟩ e = ⟨takeLast 1000 A, takeLast 1000 (B ++ [e])⟩ := by
  simp only [recordFeedback, if_neg hg, if_pos hb]

theorem recordFeedback_other (A B : List FeedbackEvent) (e : FeedbackEvent)
    (hg : ¬ (e.outcome = "good" ∧ e.suggested = e.actual))
    (hb : ¬ e.outcome = "bad") :
    recordFeedback ⟨A, B⟩ e = ⟨takeLast 1000 A, takeLast 1000 B⟩ := by
  simp only [recordFeedback, if_neg hg, if_neg hb]

/-- Characterization of the state reached by a sequence of
`record_feedback` calls from the empty state: each log is exactly the last
1000 of the events routed to it, in order. -/
theorem runFeedback_eq (events : List FeedbackEvent) :
    runFeedback events =
      ⟨takeLast 1000 (events.filter isGoodMatch),
       takeLast 1000 (events.filter isBadOutcome)⟩ := by
  induction events using List.reverseRecOn with
  | nil => simp [runFeedback, takeLast_nil]
  | append_singleton l e ih =>
      have hrun : runFeedback (l ++ [e]) = recordFeedback (runFeedback l) e := by
        simp [runFeedback, List.foldl_append]
      rw [hrun, ih]
      by_cases hg : e.outcome = "good" ∧ e.suggested = e.actual
      · have h1 : isGoodMatch e = true := (isGoodMatch_iff e).mpr hg
        have h2 : isBadOutcome e = false := by
          simp [isBadOutcome, h1]
        have hfg : (l ++ [e]).filter isGoodMatch =
            l.filter isGoodMatch ++ [e] := by
          simp [List.filter_append, h1]
        have hfb : (l ++ [e]).filter isBadOutcome =
            l.filter isBadOutcome := by
          simp [List.filter_append, h2]
        rw [hfg, hfb, recordFeedback_good _ _ _ hg]
        congr 1
        · exact takeLast_append_takeLast (by norm_num) _ _
        · exact takeLast_takeLast (le_refl 1000) _
      · have h1 : isGoodMatch e = false := by
          rw [Bool.eq_false_iff]
          intro hc
          exact hg ((isGoodMatch_iff e).mp hc)
        by_cases hb : e.outcome = "bad"
        · have h2 : isBadOutcome e = true := by
            simp [isBadOutcome, h1, hb]
          have hfg : (l ++ [e]).filter isGoodMatch =
              l.filter isGoodMatch := by
            simp [List.filter_append, h1]
          have hfb : (l ++ [e]).filter isBadOutcome =
              l.filter isBadOutcome ++ [e] := by
            simp [List.filter_append, h2]
          rw [hfg, hfb, recordFeedback_bad _ _ _ hg hb]
          congr 1
          · exact takeLast_takeLast (le_refl 1000) _
          · exact takeLast_append_takeLast (by norm_num) _ _
        · have h2 : isBadOutcome e = false := by
            simp [isBadOutcome, hb]
          have hfg : (l ++ [e]).filter isGoodMatch =
              l.filter isGoodMatch := by
            simp [List.filter_append, h1]
          have hfb : (l ++ [e]).filter isBadOutcome =
              l.filter isBadOutcome := by
            simp [List.filter_append, h2]
          rw [hfg, hfb, recordFeedback_other _ _ _ hg hb]
          congr 1
          · exact takeLast_takeLast (le_refl 1000) _
          · exact takeLast_takeLast (le_refl 1000) _

/-- C5: After any sequence of `record_feedback` calls from the empty state,
each pattern log holds at most 1000 entries, and the retained entries are
exactly the most recent matching events (FIFO eviction of the oldest). -/
theorem recordFeedback_bounded_fifo (events : List FeedbackEvent) :
    (runFeedback events).successful_patterns.length ≤ 1000 ∧
    (runFeedback events).failed_patterns.length ≤ 1000 ∧
    (runFeedback events).successful_patterns =
      takeLast 1000 (events.filter isGoodMatch) ∧
    (runFeedback events).failed_patterns =
      takeLast 1000 (events.filter isBadOutcome) := by
  rw [runFeedback_eq]
  exact ⟨takeLast_length_le _ _, takeLast_length_le _ _, rfl, rfl⟩

/-- C10: a `record_feedback` call with outcome `"neutral"`, or with outcome
`"good"` but a suggested route different from the actual route, leaves both
pattern logs exactly as they were (for any state the system itself can
reach, i.e. with both logs within the 1000-entry cap). -/
theorem recordFeedback_frame (st : PatternLogs) (e : FeedbackEvent)
    (hcase : e.outcome = "neutral" ∨
      (e.outcome = "good" ∧ e.suggested ≠ e.actual))
    (hs : st.successful_patterns.length ≤ 1000)
    (hf : st.failed_patterns.length ≤ 1000) :
    recordFeedback st e = st := by
  have hng : ¬ (e.outcome = "good" ∧ e.suggested = e.actual) := by
    rcases hcase with h | ⟨h1, h2⟩
    · rintro ⟨hgd, -⟩
      rw [h] at hgd
      exact absurd hgd (by decide)
    · rintro ⟨-, hgd⟩
      exact h2 hgd
  have hnb : ¬ e.outcome = "bad" := by
    rcases hcase with h | ⟨h1, -⟩
    · rw [h]
      decide
    · rw [h1]
      decide
  simp only [recordFeedback, if_neg hng, if_neg hnb,
    takeLast_of_length_le hs, takeLast_of_length_le hf]

/-- Witness for C10 at a concrete input. -/
theorem recordFeedback_frame_witness :
    recordFeedback ⟨[⟨"web", "web", "good"⟩], []⟩ ⟨"web", "agent", "good"⟩ =
      ⟨[⟨"web", "web", "good"⟩], []⟩ :=
  recordFeedback_frame _ _ (Or.inr ⟨rfl, by decide⟩) (by decide) (by decide)

/-- C2: `estimate` looks the model up in the rate table (absent models rate
as zero), charges `tokens/1000 × rate` on each side; zero tokens cost 0 for
every model, and the documented gpt-3.5-turbo example evaluates to 1.25. -/
theorem estimate_spec :
    (∀ (m : String) (costs : List (String × ℚ × ℚ)),
      estimate 0 0 m costs = 0) ∧
    (estimate 1000 500 "openai/gpt-3.5-turbo" DEFAULT = 1.25) ∧
    (∀ (tin tout : ℕ) (m : String) (costs : List (String × ℚ × ℚ)),
      alookup m costs = none → estimate tin tout m costs = 0) ∧
    (∀ (tin tout : ℕ) (m : String) (costs : List (String × ℚ × ℚ))
      (rin rout : ℚ), alookup m costs = some (rin, rout) →
      estimate tin tout m costs =
        (tin / 1000 : ℚ) * rin + (tout / 1000 : ℚ) * rout) := by
  refine ⟨?_, ?_, ?_, ?_⟩
  · intro m costs
    simp [estimate]
  · have h : alookup "openai/gpt-3.5-turbo" DEFAULT = some (0.50, 1.50) := rfl
    simp only [estimate, h, Option.getD_some]
    norm_num
  · intro tin tout m costs h
    simp [estimate, h]
  · intro tin tout m costs rin rout h
    simp [estimate, h]

/-- Witness for C2's conditional parts at concrete inputs. -/
theorem estimate_spec_witness :
    estimate 2000 1000 "no-such-model" DEFAULT = 0 ∧
    estimate 2000 1000 "openai/gpt-4o" DEFAULT = 15 := by
  constructor
  · exact estimate_spec.2.2.1 2000 1000 "no-such-model" DEFAULT rfl
  · rw [estimate_spec.2.2.2 2000 1000 "openai/gpt-4o" DEFAULT 2.50 10.00 rfl]
    norm_num

/- ### `AdaptiveRouter._update_route_weights` (`adaptive_router.py`) -/

/-- The four routing channels, in the insertion order of `base_weights`. -/
def channels : List String := ["web", "agent", "ask", "direct"]

/-- Per-route efficiency scores (requests per dollar): routes with
`count > 0` and `total_cost > 0` map to `count / total_cost`.  The
performance dict is modelled as an association list of
(route, count, total_cost). -/
def effScores (performance : List (String × ℕ × ℚ)) : List (String × ℚ) :=
  performance.filterMap (fun e =>
    if 0 < e.2.1 ∧ 0 < e.2.2 then some (e.1, (e.2.1 : ℚ) / e.2.2) else none)

/-- Python `max(efficiency_scores.values())` (0 when empty; Python would raise,
but the code only takes the max under an `if efficiency_scores:` guard). -/
def maxEff (performance : List (String × ℕ × ℚ)) : ℚ :=
  match effScores performance with
  | [] => 0
  | e :: rest => rest.foldl (fun m x => max m x.2) e.2

/-- The weight `_update_route_weights` assigns to route `r` when
`efficiency_scores` is non-empty: `1.0 + (efficiency / max_efficiency) * 0.5`
for scored routes, the base weight `1.0` otherwise. -/
def weightFor (performance : List (String × ℕ × ℚ)) (r : String) : ℚ :=
  match alookup r (effScores performance) with
  | some e => 1 + (e / maxEff performance) * 0.5
  | none => 1

/-- Method `_update_route_weights(performance)`: the resulting `route_weights`
dict over the four channels. -/
def updateRouteWeights (performance : List (String × ℕ × ℚ)) :
    List (String × ℚ) :=
  if effScores performance = [] then channels.map (fun r => (r, 1))
  else channels.map (fun r => (r, weightFor performance r))

/- ### association-list and fold-max helper lemmas -/

theorem alookup_eq_none_of_not_mem {β : Type} {r : String}
    {l : List (String × β)} (h : r ∉ l.map Prod.fst) :
    alookup r l = none := by
  induction l with
  | nil => rfl
  | cons a rest ih =>
      simp only [List.map_cons, List.mem_cons] at h
      push_neg at h
      have hne : ¬ a.1 = r := fun hc => h.1 hc.symm
      simp only [alookup]
      rw [if_neg hne]
      exact ih h.2

theorem alookup_some_mem {β : Type} {r : String} {b : β}
    {l : List (String × β)} (h : alookup r l = some b) : (r, b) ∈ l := by
  induction l with
  | nil => exact absurd h (by simp [alookup])
  | cons a rest ih =>
      by_cases ha : a.1 = r
      · simp only [alookup] at h
        rw [if_pos ha] at h
        obtain ⟨rfl⟩ := Option.some.inj h
        subst ha
        exact List.mem_cons_self a rest
      · simp only [alookup] at h
        rw [if_neg ha] at h
        exact List.mem_cons_of_mem _ (ih h)

theorem alookup_map_pair {β : Type} (g : String → β) {r : String}
    {l : List String} (h : r ∈ l) :
    alookup r (l.map (fun s => (s, g s))) = some (g r) := by
  induction l with
  | nil => exact absurd h (List.not_mem_nil r)
  | cons a rest ih =>
      by_cases ha : a = r
      · subst ha
        simp [alookup]
      · rcases List.mem_cons.mp h with h' | h'
        · exact absurd h'.symm ha
        · simp only [List.map_cons, alookup, if_neg ha]
          exact ih h'

theorem keys_map_pair {β : Type} (g : String → β) (l : List String) :
    (l.map (fun s => (s, g s))).map Prod.fst = l := by
  induction l with
  | nil => rfl
  | cons a rest ih => simp [ih]

/-- Lookup through `effScores`, given the unique keys of a Python dict. -/
theorem alookup_effScores (performance : List (String × ℕ × ℚ))
    (hnd : (performance.map Prod.fst).Nodup) (r : String) :
    alookup r (effScores performance) =
      (alookup r performance).bind (fun e =>
        if 0 < e.1 ∧ 0 < e.2 then some ((e.1 : ℚ) / e.2) else none) := by
  induction performance with
  | nil => rfl
  | cons a rest ih =>
      have hnd' : (rest.map Prod.fst).Nodup := (List.nodup_cons.mp hnd).2
      have hmem : a.1 ∉ rest.map Prod.fst := (List.nodup_cons.mp hnd).1
      by_cases hkeep : 0 < a.2.1 ∧ 0 < a.2.2
      · simp only [effScores, List.filterMap_cons, if_pos hkeep]
        by_cases ha : a.1 = r
        · simp [alookup, ha, hkeep]
        · simp only [alookup, if_neg ha]
          exact ih hnd'
      · simp only [effScores, List.filterMap_cons, if_neg hkeep]
        by_cases ha : a.1 = r
        · subst ha
          have h1 : alookup a.1 rest = none :=
            alookup_eq_none_of_not_mem hmem
          have h2 : alookup a.1 (effScores rest) = none := by
            rw [ih hnd', h1]
            rfl
          simp only [effScores] at h2
          rw [h2]
          simp [alookup, hkeep]
        · simp only [alookup, if_neg ha]
          exact ih hnd'

theorem le_foldl_max (l : List (String × ℚ)) (b : ℚ) :
    b ≤ l.foldl (fun m x => max m x.2) b := by
  induction l generalizing b with
  | nil => exact le_refl b
  | cons a rest ih =>
      exact le_trans (le_max_left b a.2) (ih (max b a.2))

theorem mem_le_foldl_max {x : String × ℚ} {l : List (String × ℚ)}
    (h : x ∈ l) (b : ℚ) :
    x.2 ≤ l.foldl (fun m x => max m x.2) b := by
  induction l generalizing b with
  | nil => exact absurd h (List.not_mem_nil x)
  | cons a rest ih =>
      rcases List.mem_cons.mp h with h' | h'
      · subst h'
        exact le_trans (le_max_right b x.2) (le_foldl_max rest _)
      · exact ih h' _

theorem le_maxEff {performance : List (String × ℕ × ℚ)} {x : String × ℚ}
    (h : x ∈ effScores performance) : x.2 ≤ maxEff performance := by
  unfold maxEff
  rcases he : effScores performance with _ | ⟨e, rest⟩
  · rw [he] at h
    exact absurd h (List.not_mem_nil x)
  · rw [he] at h
    rcases List.mem_cons.mp h with h' | h'
    · subst h'
      exact le_foldl_max rest _
    · exact mem_le_foldl_max h' _

theorem effScores_pos {performance : List (String × ℕ × ℚ)} {x : String × ℚ}
    (h : x ∈ effScores performance) : 0 < x.2 := by
  simp only [effScores, List.mem_filterMap] at h
  obtain ⟨a, -, ha⟩ := h
  by_cases hc : 0 < a.2.1 ∧ 0 < a.2.2
  · rw [if_pos hc] at ha
    obtain ⟨rfl⟩ := Option.some.inj ha
    exact div_pos (by exact_mod_cast hc.1) hc.2
  · rw [if_neg hc] at ha
    exact absurd ha (by simp)

theorem maxEff_pos {performance : List (String × ℕ × ℚ)}
    (h : effScores performance ≠ []) : 0 < maxEff performance := by
  rcases he : effScores performance with _ | ⟨e, rest⟩
  · exact absurd he h
  · have hmem : e ∈ effScores performance := by
      rw [he]
      exact List.mem_cons_self e rest
    have := effScores_pos hmem
    have hle : e.2 ≤ maxEff performance := le_maxEff hmem
    linarith

/-- C4: with the unique route keys of a Python dict, `_update_route_weights`
produces weights over exactly the four channels; a channel whose window has
requests and positive cost gets weight `1 + (efficiency/maxEfficiency)*0.5`,
which lies in [1, 1.5]; a channel with no usage or zero cost gets exactly 1;
and a strictly more efficient channel (web vs agent) gets a strictly larger
weight. -/
theorem updateRouteWeights_spec (performance : List (String × ℕ × ℚ))
    (hnd : (performance.map Prod.fst).Nodup) :
    ((updateRouteWeights performance).map Prod.fst = channels) ∧
    (∀ r ∈ channels, ∀ (cnt : ℕ) (cost : ℚ),
      alookup r performance = some (cnt, cost) → 0 < cnt → 0 < cost →
      alookup r (updateRouteWeights performance) =
        some (1 + (((cnt : ℚ) / cost) / maxEff performance) * 0.5) ∧
      ∀ v, alookup r (updateRouteWeights performance) = some v →
        1 ≤ v ∧ v ≤ 1.5) ∧
    (∀ r ∈ channels,
      (alookup r performance = none ∨
        ∃ (cnt : ℕ) (cost : ℚ), alookup r performance = some (cnt, cost) ∧
          (cnt = 0 ∨ cost ≤ 0)) →
      alookup r (updateRouteWeights performance) = some 1) ∧
    (∀ (cw ca : ℕ) (costw costa : ℚ),
      alookup "web" performance = some (cw, costw) → 0 < cw → 0 < costw →
      alookup "agent" performance = some (ca, costa) → 0 < ca → 0 < costa →
      (ca : ℚ) / costa < (cw : ℚ) / costw →
      ∀ vw va, alookup "web" (updateRouteWeights performance) = some vw →
        alookup "agent" (updateRouteWeights performance) = some va →
        va < vw) := by
  have hchan : ∀ r ∈ channels, ∀ (cnt : ℕ) (cost : ℚ),
      alookup r performance = some (cnt, cost) → 0 < cnt → 0 < cost →
      alookup r (updateRouteWeights performance) =
        some (1 + (((cnt : ℚ) / cost) / maxEff performance) * 0.5) := by
    intro r hr cnt cost hlook hcnt hcost
    have heff : alookup r (effScores performance) =
        some ((cnt : ℚ) / cost) := by
      rw [alookup_effScores performance hnd, hlook]
      simp [hcnt, hcost]
    have hne : effScores performance ≠ [] := by
      intro hnil
      rw [hnil] at heff
      exact absurd heff (by simp [alookup])
    unfold updateRouteWeights
    rw [if_neg hne, alookup_map_pair _ hr]
    unfold weightFor
    rw [heff]
  refine ⟨?_, ?_, ?_, ?_⟩
  · unfold updateRouteWeights
    by_cases hne : effScores performance = []
    · rw [if_pos hne, keys_map_pair]
    · rw [if_neg hne, keys_map_pair]
  · intro r hr cnt cost hlook hcnt hcost
    have h1 := hchan r hr cnt cost hlook hcnt hcost
    refine ⟨h1, ?_⟩
    intro v hv
    rw [h1] at hv
    obtain ⟨rfl⟩ := Option.some.inj hv
    have heff : alookup r (effScores performance) =
        some ((cnt : ℚ) / cost) := by
      rw [alookup_effScores performance hnd, hlook]
      simp [hcnt, hcost]
    have hmem : (r, (cnt : ℚ) / cost) ∈ effScores performance :=
      alookup_some_mem heff
    have hne : effScores performance ≠ [] := by
      intro hnil
      rw [hnil] at hmem
      exact absurd hmem (List.not_mem_nil _)
    have hq : (0 : ℚ) < (cnt : ℚ) / cost :=
      div_pos (by exact_mod_cast hcnt) hcost
    have hmax : 0 < maxEff performance := maxEff_pos hne
    have hle : (cnt : ℚ) / cost ≤ maxEff performance := le_maxEff hmem
    have hr1 : (0 : ℚ) < ((cnt : ℚ) / cost) / maxEff performance :=
      div_pos hq hmax
    have hr2 : ((cnt : ℚ) / cost) / maxEff performance ≤ 1 :=
      (div_le_one hmax).mpr hle
    constructor <;> nlinarith
  · intro r hr hcase
    have heff : alookup r (effScores performance) = none := by
      rw [alookup_effScores performance hnd]
      rcases hcase with h | ⟨cnt, cost, h, hz⟩
      · rw [h]
        rfl
      · rw [h]
        have : ¬ (0 < cnt ∧ 0 < cost) := by
          rcases hz with hz | hz
          · rintro ⟨hc, -⟩
            omega
          · rintro ⟨-, hc⟩
            linarith
        simp [this]
    unfold updateRouteWeights
    by_cases hne : effScores performance = []
    · rw [if_pos hne, alookup_map_pair _ hr]
    · rw [if_neg hne, alookup_map_pair _ hr]
      unfold weightFor
      rw [heff]
  · intro cw ca costw costa hw hcw hcostw ha hca hcosta hlt vw va hvw hva
    have h1 := hchan "web" (by simp [channels]) cw costw hw hcw hcostw
    have h2 := hchan "agent" (by simp [channels]) ca costa ha hca hcosta
    rw [h1] at hvw
    rw [h2] at hva
    obtain ⟨rfl⟩ := Option.some.inj hvw
    obtain ⟨rfl⟩ := Option.some.inj hva
    have heffw : alookup "web" (effScores performance) =
        some ((cw : ℚ) / costw) := by
      rw [alookup_effScores performance hnd, hw]
      simp [hcw, hcostw]
    have hmem : ("web", (cw : ℚ) / costw) ∈ effScores performance :=
      alookup_some_mem heffw
    have hne : effScores performance ≠ [] := by
      intro hnil
      rw [hnil] at hmem
      exact absurd hmem (List.not_mem_nil _)
    have hmax : 0 < maxEff performance := maxEff_pos hne
    have hdiv : (ca : ℚ) / costa / maxEff performance <
        (cw : ℚ) / costw / maxEff performance :=
      div_lt_div_of_pos_right hlt hmax
    nlinarith

/-- Witness for C4 at the concrete window
web ↦ (2 requests, $1), agent ↦ (1 request, $1). -/
theorem updateRouteWeights_spec_witness :
    1 + (((1 : ℕ) : ℚ) / 1 / maxEff [("web", (2, 1)), ("agent", (1, 1))]) * 0.5 <
      1 + (((2 : ℕ) : ℚ) / 1 / maxEff [("web", (2, 1)), ("agent", (1, 1))]) * 0.5 := by
  have h := updateRouteWeights_spec [("web", (2, 1)), ("agent", (1, 1))]
    (by simp)
  have hw := (h.2.1 "web" (by simp [channels]) 2 1 rfl (by norm_num)
    (by norm_num)).1
  have ha := (h.2.1 "agent" (by simp [channels]) 1 1 (by rfl) (by norm_num)
    (by norm_num)).1
  exact h.2.2.2 2 1 1 1 rfl (by norm_num) (by norm_num) (by rfl)
    (by norm_num) (by norm_num) (by norm_num) _ _ hw ha

/- ### `AdaptiveRouter._apply_keyword_learning` (`adaptive_router.py`) -/

/-- Python `scores[k] *= f` on a dict modelled as an association list: multiply the
value at the first occurrence of `k` (Python would raise `KeyError` on a
missing key; the pattern logs only ever hold channel routes, which are keys
of every score dict this is applied to). -/
def mulAt (k : String) (f : ℚ) : List (String × ℚ) → List (String × ℚ)
  | [] => []
  | (a, v) :: rest => if a = k then (a, v * f) :: rest else (a, v) :: mulAt k f rest

/-- Method `_apply_keyword_learning(prompt, scores)`: iterate over
`successful_patterns[-100:]` and, for each pattern with
`suggested_route == actual_route`, multiply that route's score by 1.1.
Patterns are modelled by their (suggested_route, actual_route) pair; the
prompt is not consulted by the boost logic. -/
def applyKeywordLearning (scores : List (String × ℚ))
    (patterns : List (String × String)) : List (String × ℚ) :=
  (takeLast 100 patterns).foldl
    (fun sc pat => if pat.1 = pat.2 then mulAt pat.1 1.1 sc else sc) scores

/-- Number of entries among the last 100 patterns that boost channel `c`. -/
def matchCount (c : String) (patterns : List (String × String)) : ℕ :=
  ((takeLast 100 patterns).filter (fun p => p.1 == p.2 && p.1 == c)).length

theorem alookup_mulAt_same (k : String) (f : ℚ) (l : List (String × ℚ)) :
    alookup k (mulAt k f l) = (alookup k l).map (fun v => v * f) := by
  induction l with
  | nil => rfl
  | cons a rest ih =>
      obtain ⟨a1, v⟩ := a
      by_cases ha : a1 = k
      · simp [mulAt, alookup, ha]
      · simp only [mulAt, if_neg ha, alookup]
        exact ih

theorem alookup_mulAt_other {c k : String} (hck : c ≠ k) (f : ℚ)
    (l : List (String × ℚ)) :
    alookup c (mulAt k f l) = alookup c l := by
  induction l with
  | nil => rfl
  | cons a rest ih =>
      obtain ⟨a1, v⟩ := a
      by_cases ha : a1 = k
      · have hac : ¬ a1 = c := fun hc => hck (hc ▸ ha.symm ▸ rfl)
        simp only [mulAt, if_pos ha, alookup]
        rw [if_neg hac, if_neg hac]
      · by_cases hac : a1 = c
        · simp only [mulAt, if_neg ha, alookup]
          rw [if_pos hac, if_pos hac]
        · simp only [mulAt, if_neg ha, alookup]
          rw [if_neg hac, if_neg hac]
          exact ih

theorem alookup_foldl_boost (c : String) (ps : List (String × String))
    (scores : List (String × ℚ)) :
    alookup c (ps.foldl
        (fun sc pat => if pat.1 = pat.2 then mulAt pat.1 1.1 sc else sc)
        scores) =
      (alookup c scores).map
        (fun v => v * 1.1 ^ (ps.filter (fun p => p.1 == p.2 && p.1 == c)).length) := by
  induction ps generalizing scores with
  | nil =>
      cases h : alookup c scores <;> simp [h]
  | cons p ps ih =>
      rw [List.foldl_cons, ih]
      by_cases hpp : p.1 = p.2
      · by_cases hpc : p.1 = c
        · have hfilter : (p.1 == p.2 && p.1 == c) = true := by
            rw [Bool.and_eq_true, beq_iff_eq, beq_iff_eq]
            exact ⟨hpp, hpc⟩
          rw [if_pos hpp]
          subst hpc
          rw [alookup_mulAt_same]
          simp only [List.filter_cons, hfilter, if_true, List.length_cons]
          cases h : alookup p.1 scores with
          | none => rfl
          | some v =>
              show some (v * 1.1 * 1.1 ^ _) = some (v * 1.1 ^ _)
              congr 1
              ring
        · have hfilter : (p.1 == p.2 && p.1 == c) = false := by
            rw [Bool.eq_false_iff]
            intro hc
            rw [Bool.and_eq_true, beq_iff_eq, beq_iff_eq] at hc
            exact hpc hc.2
          rw [if_pos hpp, alookup_mulAt_other (fun hc => hpc hc.symm)]
          simp only [List.filter_cons, hfilter, if_false, Bool.false_eq_true]
      · have hfilter : (p.1 == p.2 && p.1 == c) = false := by
          rw [Bool.eq_false_iff]
          intro hc
          rw [Bool.and_eq_true, beq_iff_eq, beq_iff_eq] at hc
          exact hpp hc.1
        rw [if_neg hpp]
        simp only [List.filter_cons, hfilter, if_false, Bool.false_eq_true]

/-- C7 (amended): after the keyword-learning pass, channel `c`'s score is
its incoming score multiplied by `1.1` once per matching entry
(`suggested == actual` for channel `c`) among the most recent 100
successful patterns — i.e. by `1.1 ^ matchCount`, not by a single flat
`×1.1`; a channel with no matching entry is unchanged
(`1.1 ^ 0 = 1`).  The boost ignores the prompt text entirely. -/
theorem applyKeywordLearning_boost (c : String) (scores : List (String × ℚ))
    (patterns : List (String × String)) :
    alookup c (applyKeywordLearning scores patterns) =
      (alookup c scores).map (fun v => v * 1.1 ^ matchCount c patterns) := by
  unfold applyKeywordLearning matchCount
  exact alookup_foldl_boost c (takeLast 100 patterns) scores

/-- C7 counterexample: with two matching "web" entries in the pattern log,
the web score is multiplied by 1.21, not by the single ×1.1 the claim
states. -/
theorem applyKeywordLearning_cex :
    alookup "web" (applyKeywordLearning
        [("web", 1), ("agent", 1), ("ask", 1), ("direct", 1)]
        [("web", "web"), ("web", "web")]) = some 1.21 ∧
      (1.21 : ℚ) ≠ 1.1 * 1 := by
  constructor
  · rw [applyKeywordLearning_boost]
    have hmc : matchCount "web" [("web", "web"), ("web", "web")] = 2 := by
      unfold matchCount
      rw [takeLast_of_length_le (by norm_num)]
      decide
    rw [hmc]
    have hl : alookup "web"
        [("web", (1 : ℚ)), ("agent", 1), ("ask", 1), ("direct", 1)] =
        some 1 := rfl
    rw [hl]
    show some ((1 : ℚ) * 1.1 ^ 2) = some 1.21
    rw [show ((1 : ℚ) * 1.1 ^ 2) = 1.21 by norm_num]
  · norm_num

/- ### `SmartBudgetManager.apply_budget_enforcement` (`budget_manager.py`) -/

/-- The `enforcement_info` dict (reason strings carried verbatim modulo
punctuation). -/
structure EnforcementInfo where
  enforced : Bool
  original_route : String
  original_model : String
  reason : Option String
  savings_estimated : Option String
  deriving DecidableEq, Repr

/-- List `expensive_routes` of the hard-enforcement branch. -/
def expensiveRoutes : List String := ["agent"]

/-- List `expensive_models` of the hard-enforcement branch. -/
def expensiveModels : List String := ["gpt-4", "claude-3-opus", "gpt-4-turbo"]

/-- Method `apply_budget_enforcement(org, route, model)`, as a function of the
budget state it reads (`enforcement_mode`, `percentage_used`,
`projected_spend`, `budget_limit`, `budget_fallbacks`): observe mode is a
no-op; otherwise enforcement requires `percentage_used > 90` or
`projected_spend > budget_limit * 1.2`; soft mode downgrades a model with a
configured fallback and reroutes agent→ask above 95%; hard mode at
`percentage_used >= 100` forces expensive requests to
(`ask`, `gpt-3.5-turbo`). -/
def applyBudgetEnforcement (mode : String)
    (percentage_used projected_spend budget_limit : ℚ)
    (budget_fallbacks : List (String × String)) (route model : String) :
    String × String × EnforcementInfo :=
  let info : EnforcementInfo := ⟨false, route, model, none, none⟩
  if mode = "observe" then (route, model, info)
  else if ¬ (percentage_used > 90 ∨
      projected_spend > budget_limit * 1.2) then (route, model, info)
  else if mode = "soft" then
    match alookup model budget_fallbacks with
    | some new_model =>
        if route = "agent" ∧ percentage_used > 95 then
          ("ask", new_model, ⟨true, route, model,
            some "Budget critical: routing to ask for clarification instead of agent mode",
            some "~70%"⟩)
        else
          (route, new_model, ⟨true, route, model,
            some ("Budget enforcement: downgraded " ++ model ++ " -> " ++ new_model),
            some "~40%"⟩)
    | none =>
        if route = "agent" ∧ percentage_used > 95 then
          ("ask", model, ⟨true, route, model,
            some "Budget critical: routing to ask for clarification instead of agent mode",
            some "~70%"⟩)
        else (route, model, info)
  else if mode = "hard" ∧ percentage_used ≥ 100 then
    if route ∈ expensiveRoutes ∨ model ∈ expensiveModels then
      ("ask", "gpt-3.5-turbo", ⟨true, route, model,
        some "Hard budget limit reached: forcing cost-effective alternatives",
        some "~80%"⟩)
    else (route, model, info)
  else (route, model, info)

/-- C6 (amended): in hard mode at `percentage_used >= 100`, an expensive
request is forced to route `ask` and the fixed model `gpt-3.5-turbo` (the
code's hardcoded cheapest option — not looked up among the configured
fallbacks), with `enforced = true`; a request whose route and model are
both inexpensive is returned unchanged; and in observe mode every request
is returned unchanged with `enforced = false`. -/
theorem applyBudgetEnforcement_spec :
    (∀ (pct proj limit : ℚ) (fb : List (String × String)) (route model : String),
      applyBudgetEnforcement "observe" pct proj limit fb route model =
        (route, model, ⟨false, route, model, none, none⟩)) ∧
    (∀ (pct proj limit : ℚ) (fb : List (String × String)) (route model : String),
      pct ≥ 100 → (route ∈ expensiveRoutes ∨ model ∈ expensiveModels) →
      applyBudgetEnforcement "hard" pct proj limit fb route model =
        ("ask", "gpt-3.5-turbo", ⟨true, route, model,
          some "Hard budget limit reached: forcing cost-effective alternatives",
          some "~80%"⟩)) ∧
    (∀ (pct proj limit : ℚ) (fb : List (String × String)) (route model : String),
      pct ≥ 100 → route ∉ expensiveRoutes → model ∉ expensiveModels →
      applyBudgetEnforcement "hard" pct proj limit fb route model =
        (route, model, ⟨false, route, model, none, none⟩)) := by
  refine ⟨?_, ?_, ?_⟩
  · intro pct proj limit fb route model
    unfold applyBudgetEnforcement
    rw [if_pos rfl]
  · intro pct proj limit fb route model hpct hexp
    unfold applyBudgetEnforcement
    rw [if_neg (by decide : ¬ ("hard" : String) = "observe")]
    rw [if_neg (by
      intro hc
      exact hc (Or.inl (by linarith)))]
    rw [if_neg (by decide : ¬ ("hard" : String) = "soft")]
    rw [if_pos ⟨rfl, hpct⟩, if_pos hexp]
  · intro pct proj limit fb route model hpct hroute hmodel
    unfold applyBudgetEnforcement
    rw [if_neg (by decide : ¬ ("hard" : String) = "observe")]
    rw [if_neg (by
      intro hc
      exact hc (Or.inl (by linarith)))]
    rw [if_neg (by decide : ¬ ("hard" : String) = "soft")]
    rw [if_pos ⟨rfl, hpct⟩]
    rw [if_neg (by
      rintro (h | h)
      · exact hroute h
      · exact hmodel h)]

/-- Witness for the conditional parts of C6's amended theorem. -/
theorem applyBudgetEnforcement_spec_witness :
    applyBudgetEnforcement "hard" 100 0 500 [] "agent" "gpt-4" =
      ("ask", "gpt-3.5-turbo", ⟨true, "agent", "gpt-4",
        some "Hard budget limit reached: forcing cost-effective alternatives",
        some "~80%"⟩) ∧
    applyBudgetEnforcement "hard" 100 0 500 [] "direct" "gpt-4o-mini" =
      ("direct", "gpt-4o-mini", ⟨false, "direct", "gpt-4o-mini", none, none⟩) := by
  constructor
  · exact applyBudgetEnforcement_spec.2.1 100 0 500 [] "agent" "gpt-4"
      (by norm_num) (Or.inl (by decide))
  · exact applyBudgetEnforcement_spec.2.2 100 0 500 [] "direct" "gpt-4o-mini"
      (by norm_num) (by decide) (by decide)

/-- C6 counterexample: with the only configured fallback being
`local/tiny-llama`, hard enforcement at 100% still returns the hardcoded
`gpt-3.5-turbo`, which is not a configured fallback model at all — so it is
not "the cheapest configured fallback model" the claim describes. -/
theorem applyBudgetEnforcement_cex :
    (applyBudgetEnforcement "hard" 100 0 500
        [("gpt-4", "local/tiny-llama")] "agent" "gpt-4").2.1 =
      "gpt-3.5-turbo" ∧
    "gpt-3.5-turbo" ∉
      ([("gpt-4", "local/tiny-llama")].map Prod.snd : List String) := by
  constructor
  · unfold applyBudgetEnforcement
    rw [if_neg (by decide : ¬ ("hard" : String) = "observe")]
    rw [if_neg (by
      intro hc
      exact hc (Or.inl (by norm_num)))]
    rw [if_neg (by decide : ¬ ("hard" : String) = "soft")]
    rw [if_pos ⟨rfl, by norm_num⟩]
    rw [if_pos (Or.inl (by decide : ("agent" : String) ∈ expensiveRoutes))]
  · decide

/- ### `summarize` (`packages/core/analytics/aggregator.py`) -/

/-- A usage record as consumed by `summarize` (`latency_ms` may be `None`;
`getattr(r, "latency_ms") or 0` maps both `None` and `0` to `0`). -/
structure UsageRow where
  user : String
  feature : String
  model : String
  tokens_in : ℕ
  tokens_out : ℕ
  cost_usd : ℚ
  latency_ms : Option ℕ
  deriving DecidableEq, Repr

/-- The `by` argument of `summarize`: `Literal["user", "feature", "model"]`. -/
inductive GroupKey | user | feature | model
  deriving DecidableEq, Repr

/-- Python `getattr(r, by)`. -/
def keyOf : GroupKey → UsageRow → String
  | .user, r => r.user
  | .feature, r => r.feature
  | .model, r => r.model

/-- One per-key bucket of `summarize`'s accumulator dict. -/
structure Bucket where
  requests : ℕ
  tokens_in : ℕ
  tokens_out : ℕ
  cost_usd : ℚ
  latencies : List ℕ
  deriving DecidableEq, Repr

/-- Fresh bucket supplied to `setdefault`. -/
def emptyBucket : Bucket := ⟨0, 0, 0, 0, []⟩

/-- The per-row bucket increments of `summarize`'s loop body. -/
def bumpBucket (b : Bucket) (r : UsageRow) : Bucket :=
  ⟨b.requests + 1, b.tokens_in + r.tokens_in, b.tokens_out + r.tokens_out,
   b.cost_usd + r.cost_usd, b.latencies ++ [r.latency_ms.getD 0]⟩

/-- Python `out.setdefault(key, …)` followed by the increments: update the bucket
at `key` in place, or append a fresh one (Python dicts keep insertion
order). -/
def addRow (key : String) (r : UsageRow) :
    List (String × Bucket) → List (String × Bucket)
  | [] => [(key, bumpBucket emptyBucket r)]
  | (a, b) :: rest =>
      if a = key then (a, bumpBucket b r) :: rest
      else (a, b) :: addRow key r rest

/-- The accumulator dict `out` after `summarize`'s first loop. -/
def buildBuckets (rows : List UsageRow) (g : GroupKey) :
    List (String × Bucket) :=
  rows.foldl (fun acc r => addRow (keyOf g r) r acc) []

/-- Python `sorted(latencies)` (ascending; ties are equal numbers, so any correct
sort yields Python's result). -/
def sortNat (l : List ℕ) : List ℕ := l.insertionSort (· ≤ ·)

/-- Python `lat[int(0.95 * len(lat)) - 1] if lat else 0`.  For every reachable
list size the float product `0.95 * n` truncates to `⌊19·n/20⌋` (the float
nearest `0.95` is below `19/20` and the rounding of the product never
crosses the next `0.05`-spaced value), and Python's negative index (here
only `-1`, at `n = 1`) wraps to `n - 1`. -/
def p95 (lats : List ℕ) : ℕ :=
  let lat := sortNat lats
  if lat.isEmpty then 0
  else
    let i : ℤ := (19 * lat.length : ℤ) / 20 - 1
    if i < 0 then lat.getD (lat.length - 1) 0 else lat.getD i.toNat 0

/-- Python `round(x, 2)` (Python rounds half-to-even on binary floats; no claim
depends on the tie behaviour, so nearest-integer rounding stands in). -/
def round2 (x : ℚ) : ℚ := round (x * 100) / 100

/-- Function `summarize(rows, by)`: one `(key, requests, tokens_in, tokens_out,
cost, p95-latency)` tuple per bucket, in insertion order. -/
def summarize (rows : List UsageRow) (g : GroupKey) :
    List (String × ℕ × ℕ × ℕ × ℚ × ℕ) :=
  (buildBuckets rows g).map (fun kb =>
    (kb.1, kb.2.requests, kb.2.tokens_in, kb.2.tokens_out,
     round2 kb.2.cost_usd, p95 kb.2.latencies))

/-- The rows of one group: those whose `by`-key equals `k`. -/
def groupRows (rows : List UsageRow) (g : GroupKey) (k : String) :
    List UsageRow :=
  rows.filter (fun r => keyOf g r == k)

/-- The bucket a list of rows aggregates to. -/
def aggregate (rs : List UsageRow) : Bucket :=
  ⟨rs.length, (rs.map UsageRow.tokens_in).sum, (rs.map UsageRow.tokens_out).sum,
   (rs.map UsageRow.cost_usd).sum, rs.map (fun r => r.latency_ms.getD 0)⟩

theorem aggregate_append (rs : List UsageRow) (r : UsageRow) :
    aggregate (rs ++ [r]) = bumpBucket (aggregate rs) r := by
  simp [aggregate, bumpBucket]

theorem aggregate_single (r : UsageRow) :
    aggregate [r] = bumpBucket emptyBucket r := by
  simp [aggregate, bumpBucket, emptyBucket]

theorem alookup_addRow_same (key : String) (r : UsageRow)
    (acc : List (String × Bucket)) :
    alookup key (addRow key r acc) =
      some (bumpBucket ((alookup key acc).getD emptyBucket) r) := by
  induction acc with
  | nil => simp [addRow, alookup]
  | cons a rest ih =>
      obtain ⟨a1, b⟩ := a
      by_cases ha : a1 = key
      · simp [addRow, alookup, ha]
      · simp only [addRow, if_neg ha, alookup]
        exact ih

theorem alookup_addRow_other {k key : String} (hk : k ≠ key) (r : UsageRow)
    (acc : List (String × Bucket)) :
    alookup k (addRow key r acc) = alookup k acc := by
  induction acc with
  | nil =>
      simp only [addRow, alookup]
      rw [if_neg (fun hc => hk hc.symm)]
  | cons a rest ih =>
      obtain ⟨a1, b⟩ := a
      by_cases ha : a1 = key
      · have hac : ¬ a1 = k := fun hc => hk (hc ▸ ha)
        simp only [addRow, if_pos ha, alookup]
        rw [if_neg hac, if_neg hac]
      · by_cases hac : a1 = k
        · simp only [addRow, if_neg ha, alookup]
          rw [if_pos hac, if_pos hac]
        · simp only [addRow, if_neg ha, alookup]
          rw [if_neg hac, if_neg hac]
          exact ih

/-- The accumulator characterization: looking a key up in `out` yields the
aggregate of exactly that key's rows, in order. -/
theorem buildBuckets_lookup (rows : List UsageRow) (g : GroupKey)
    (k : String) :
    alookup k (buildBuckets rows g) =
      if groupRows rows g k = [] then none
      else some (aggregate (groupRows rows g k)) := by
  induction rows using List.reverseRecOn with
  | nil => rfl
  | append_singleton rows r ih =>
      have hb : buildBuckets (rows ++ [r]) g =
          addRow (keyOf g r) r (buildBuckets rows g) := by
        simp [buildBuckets, List.foldl_append]
      by_cases hk : keyOf g r = k
      · have hg : groupRows (rows ++ [r]) g k = groupRows rows g k ++ [r] := by
          simp [groupRows, List.filter_append, hk]
        rw [hb, hg, hk, alookup_addRow_same, ih]
        by_cases hnil : groupRows rows g k = []
        · rw [if_pos hnil, hnil]
          rw [if_neg (by simp)]
          simp [aggregate_single]
        · rw [if_neg hnil]
          rw [if_neg (by simp)]
          simp [aggregate_append]
      · have hg : groupRows (rows ++ [r]) g k = groupRows rows g k := by
          simp only [groupRows, List.filter_append, List.filter_cons,
            List.filter_nil]
          rw [show (keyOf g r == k) = false from beq_eq_false_iff_ne.mpr hk]
          simp
        rw [hb, hg, alookup_addRow_other (fun hc => hk hc.symm), ih]

theorem addRow_keys (key : String) (r : UsageRow)
    (acc : List (String × Bucket)) :
    (addRow key r acc).map Prod.fst =
      if key ∈ acc.map Prod.fst then acc.map Prod.fst
      else acc.map Prod.fst ++ [key] := by
  induction acc with
  | nil => simp [addRow]
  | cons a rest ih =>
      obtain ⟨a1, b⟩ := a
      by_cases ha : a1 = key
      · simp [addRow, ha]
      · have : ¬ key = a1 := fun hc => ha hc.symm
        simp only [addRow, if_neg ha, List.map_cons, List.mem_cons, this,
          false_or, ih]
        by_cases hmem : key ∈ rest.map Prod.fst
        · simp [hmem]
        · simp [hmem]

theorem buildBuckets_keys_nodup (rows : List UsageRow) (g : GroupKey) :
    ((buildBuckets rows g).map Prod.fst).Nodup := by
  suffices h : ∀ acc : List (String × Bucket), (acc.map Prod.fst).Nodup →
      ((rows.foldl (fun acc r => addRow (keyOf g r) r acc) acc).map
        Prod.fst).Nodup by
    exact h [] List.nodup_nil
  induction rows with
  | nil =>
      intro acc hacc
      exact hacc
  | cons r rows ih =>
      intro acc hacc
      rw [List.foldl_cons]
      apply ih
      rw [addRow_keys]
      by_cases hmem : keyOf g r ∈ acc.map Prod.fst
      · rw [if_pos hmem]
        exact hacc
      · rw [if_neg hmem]
        exact List.Nodup.append hacc (List.nodup_singleton _)
          (List.disjoint_singleton.mpr hmem)

theorem alookup_of_mem_nodup {β : Type} {k : String} {b : β}
    {l : List (String × β)} (hnd : (l.map Prod.fst).Nodup)
    (hm : (k, b) ∈ l) : alookup k l = some b := by
  induction l with
  | nil => exact absurd hm (List.not_mem_nil _)
  | cons a rest ih =>
      rcases List.mem_cons.mp hm with h | h
      · rw [← h]
        simp [alookup]
      · have hnd' := List.nodup_cons.mp hnd
        have hne : ¬ a.1 = k := by
          intro hc
          exact hnd'.1 (hc ▸ (List.mem_map_of_mem Prod.fst h))
        simp only [alookup]
        rw [if_neg hne]
        exact ih hnd'.2 h

theorem sortNat_length (l : List ℕ) : (sortNat l).length = l.length :=
  (List.perm_insertionSort (· ≤ ·) l).length_eq

/-- The Python index arithmetic of `p95`, in ℕ terms: a singleton group
takes its only element (`lat[-1]`), a larger group the element at
`⌊0.95·n⌋ - 1`. -/
theorem p95_eq_natIdx (lats : List ℕ) (h : lats ≠ []) :
    p95 lats =
      (if (sortNat lats).length = 1 then (sortNat lats).getD 0 0
       else (sortNat lats).getD ((19 * (sortNat lats).length) / 20 - 1) 0) := by
  have hlen : (sortNat lats).length = lats.length := sortNat_length lats
  have hpos : 0 < lats.length := List.length_pos.mpr h
  unfold p95
  have hne : (sortNat lats).isEmpty = false := by
    rw [List.isEmpty_eq_false_iff_exists_mem]
    have : 0 < (sortNat lats).length := by omega
    exact List.exists_mem_of_length_pos this
  rw [if_neg (by simp [hne])]
  by_cases h1 : (sortNat lats).length = 1
  · rw [if_pos h1]
    have hidx : ((19 * (sortNat lats).length : ℤ) / 20 - 1) < 0 := by
      rw [h1]
      decide
    rw [if_pos hidx, h1]
  · rw [if_neg h1]
    have h2 : 2 ≤ (sortNat lats).length := by omega
    have hidx : ¬ ((19 * (sortNat lats).length : ℤ) / 20 - 1) < 0 := by
      have : (2 : ℤ) ≤ ((sortNat lats).length : ℤ) := by exact_mod_cast h2
      have h38 : (38 : ℤ) ≤ 19 * ((sortNat lats).length : ℤ) := by linarith
      have hdiv : (1 : ℤ) ≤ (19 * ((sortNat lats).length : ℤ)) / 20 := by
        have := Int.ediv_le_ediv (by norm_num : (0 : ℤ) < 20) h38
        omega
      omega
    rw [if_neg hidx]
    congr 1
    have hcast : ((19 * (sortNat lats).length : ℕ) : ℤ) / (20 : ℤ) =
        ((((19 * (sortNat lats).length) / 20 : ℕ)) : ℤ) :=
      (Int.ofNat_tdiv _ _).symm
    push_cast at hcast
    omega

/-- Shared characterization: each tuple reported by `summarize` concerns a
non-empty group, counts its rows, and reports `p95` of its latencies. -/
theorem summarize_mem_group (rows : List UsageRow) (g : GroupKey)
    (k : String) (n ti to_ : ℕ) (c : ℚ) (p : ℕ)
    (hmem : (k, n, ti, to_, c, p) ∈ summarize rows g) :
    groupRows rows g k ≠ [] ∧
    n = (groupRows rows g k).length ∧
    p = p95 ((groupRows rows g k).map (fun r => r.latency_ms.getD 0)) := by
  obtain ⟨kb, hkb, heq⟩ := List.mem_map.mp hmem
  simp only [Prod.mk.injEq] at heq
  obtain ⟨hk, hn, -, -, -, hp⟩ := heq
  have hlook : alookup k (buildBuckets rows g) = some kb.2 := by
    rw [← hk]
    exact alookup_of_mem_nodup (buildBuckets_keys_nodup rows g)
      (by rw [show (kb.1, kb.2) = kb from rfl]; exact hkb)
  rw [buildBuckets_lookup] at hlook
  by_cases hnil : groupRows rows g k = []
  · rw [if_pos hnil] at hlook
    exact absurd hlook (by simp)
  · rw [if_neg hnil] at hlook
    have hkb2 : kb.2 = aggregate (groupRows rows g k) :=
      (Option.some.inj hlook).symm
    refine ⟨hnil, ?_, ?_⟩
    · rw [← hn, hkb2]
      rfl
    · rw [← hp, hkb2]
      rfl

/-- C3 (amended): each tuple reported by `summarize` concerns a non-empty
group; its request count is the group size, and its p95 latency is the
element of the group's ascending latencies at index `⌊0.95·n⌋ - 1` — not
`⌈0.95·n⌉ - 1` — where a singleton group takes its only element via
Python's `lat[-1]` wraparound (an empty group cannot be reported, since
only rows create buckets). -/
theorem summarize_p95_idx (rows : List UsageRow) (g : GroupKey)
    (k : String) (n ti to_ : ℕ) (c : ℚ) (p : ℕ)
    (hmem : (k, n, ti, to_, c, p) ∈ summarize rows g) :
    groupRows rows g k ≠ [] ∧
    n = (groupRows rows g k).length ∧
    p = (let lat := sortNat ((groupRows rows g k).map
            (fun r => r.latency_ms.getD 0))
         if lat.length = 1 then lat.getD 0 0
         else lat.getD ((19 * lat.length) / 20 - 1) 0) := by
  obtain ⟨hnil, hn, hp⟩ := summarize_mem_group rows g k n ti to_ c p hmem
  refine ⟨hnil, hn, ?_⟩
  rw [hp]
  have hne : (groupRows rows g k).map (fun r => r.latency_ms.getD 0) ≠ [] := by
    simp only [ne_eq, List.map_eq_nil_iff]
    exact hnil
  exact p95_eq_natIdx _ hne

/-- C9: a group reported with exactly one request reports that single
row's latency (`latency_ms`, or 0 when missing) as its p95. -/
theorem summarize_p95_single (rows : List UsageRow) (g : GroupKey)
    (k : String) (ti to_ : ℕ) (c : ℚ) (p : ℕ)
    (hmem : (k, 1, ti, to_, c, p) ∈ summarize rows g) :
    ∃ r ∈ rows, keyOf g r = k ∧ p = r.latency_ms.getD 0 := by
  obtain ⟨hnil, hn, hp⟩ := summarize_mem_group rows g k 1 ti to_ c p hmem
  obtain ⟨r, hr⟩ := List.length_eq_one.mp hn.symm
  have hrmem : r ∈ groupRows rows g k := by
    rw [hr]
    exact List.mem_cons_self r []
  have hrow : r ∈ rows ∧ (keyOf g r == k) = true :=
    List.mem_filter.mp hrmem
  refine ⟨r, hrow.1, beq_iff_eq.mp hrow.2, ?_⟩
  rw [hp, hr]
  show p95 [r.latency_ms.getD 0] = r.latency_ms.getD 0
  have hs : sortNat [r.latency_ms.getD 0] = [r.latency_ms.getD 0] := rfl
  unfold p95
  rw [hs]
  simp

/-- Modelled from the claim's words (not from the code): p95 as the element
at index `⌈0.95·n⌉ - 1` of the ascending latencies, 0 for an empty group —
`⌈19n/20⌉ = (19n + 19) / 20` in ℕ. -/
def claimP95 (lats : List ℕ) : ℕ :=
  let lat := sortNat lats
  if lat.isEmpty then 0 else lat.getD ((19 * lat.length + 19) / 20 - 1) 0

/-- A two-record group with latencies 10 and 20. -/
def cexRows : List UsageRow :=
  [⟨"u", "f", "m", 0, 0, 0, some 10⟩, ⟨"u", "f", "m", 0, 0, 0, some 20⟩]

/-- A single-record group with latency 42. -/
def singleRows : List UsageRow := [⟨"v", "g", "n", 5, 7, 0, some 42⟩]

theorem summarize_cexRows_eval :
    summarize cexRows GroupKey.user = [("u", 2, 0, 0, 0, 10)] := by
  norm_num [summarize, cexRows, buildBuckets, addRow, keyOf, bumpBucket,
    emptyBucket, round2, p95, sortNat, List.insertionSort, List.orderedInsert]
  all_goals decide

theorem summarize_singleRows_eval :
    summarize singleRows GroupKey.user = [("v", 1, 5, 7, 0, 42)] := by
  norm_num [summarize, singleRows, buildBuckets, addRow, keyOf, bumpBucket,
    emptyBucket, round2, p95, sortNat, List.insertionSort, List.orderedInsert]

/-- C3 counterexample: for the two-record group with latencies [10, 20],
`summarize` reports p95 = 10 (index `int(0.95·2) - 1 = 0`), while the
claim's index `ceil(0.95·2) - 1 = 1` selects 20. -/
theorem summarize_p95_cex :
    summarize cexRows GroupKey.user = [("u", 2, 0, 0, 0, 10)] ∧
    claimP95 ((groupRows cexRows GroupKey.user "u").map
      (fun r => r.latency_ms.getD 0)) = 20 ∧
    (10 : ℕ) ≠ 20 :=
  ⟨summarize_cexRows_eval, by decide, by decide⟩

/-- Witness for C3's amended theorem at the concrete two-record group. -/
theorem summarize_p95_idx_witness :
    groupRows cexRows GroupKey.user "u" ≠ [] ∧
    (2 : ℕ) = (groupRows cexRows GroupKey.user "u").length ∧
    (10 : ℕ) = (let lat := sortNat ((groupRows cexRows GroupKey.user "u").map
         (fun r => r.latency_ms.getD 0))
       if lat.length = 1 then lat.getD 0 0
       else lat.getD ((19 * lat.length) / 20 - 1) 0) :=
  summarize_p95_idx cexRows GroupKey.user "u" 2 0 0 0 10
    (by rw [summarize_cexRows_eval]; exact List.mem_singleton_self _)

/-- Witness for C9 at the concrete single-record group. -/
theorem summarize_p95_single_witness :
    ∃ r ∈ singleRows, keyOf GroupKey.user r = "v" ∧
      (42 : ℕ) = r.latency_ms.getD 0 :=
  summarize_p95_single singleRows GroupKey.user "v" 5 7 0 42
    (by rw [summarize_singleRows_eval]; exact List.mem_singleton_self _)

/- ### `packages/core/routing/signals.py` -/

/-- Python `prompt.lower()` (ASCII case mapping), on the character list. -/
def lowerL (s : String) : List Char := s.toList.map Char.toLower

/-- Python substring containment `pat in hay`. -/
def containsSub (pat : List Char) : List Char → Bool
  | [] => pat.isEmpty
  | c :: rest => pat.isPrefixOf (c :: rest) || containsSub pat rest

/-- Scanner for `hay.count(pat)`: `skip > 0` consumes the remainder of a
match already counted (so occurrences do not overlap). -/
def countSubAux (pat : List Char) : ℕ → List Char → ℕ
  | _, [] => 0
  | 0, c :: rest =>
      if pat.isPrefixOf (c :: rest) ∧ pat ≠ [] then
        countSubAux pat (pat.length - 1) rest + 1
      else countSubAux pat 0 rest
  | s + 1, _ :: rest => countSubAux pat s rest

/-- Python `hay.count(pat)`: non-overlapping occurrences, scanning left to
right (all patterns used here are non-empty). -/
def countSub (pat : List Char) (l : List Char) : ℕ := countSubAux pat 0 l

/-- Regex `\s` on the ASCII range: space, tab, newline, CR, VT, FF. -/
def isPySpace (c : Char) : Bool :=
  c = ' ' || c = '\t' || c = '\n' || c = '\r' ||
  c = Char.ofNat 11 || c = Char.ofNat 12

/-- Regex `\w` on the ASCII range: letters, digits, underscore. -/
def isWordChar (c : Char) : Bool := c.isAlphanum || c = '_'

/-- Occurrence of `who\s+is` starting at the head of the list: `who`, one
or more whitespace characters, then `is` (`\s+` is greedy but whitespace
and `i` are disjoint, so greedy matching equals take-all-whitespace). -/
def whoIsAt : List Char → Bool
  | 'w' :: 'h' :: 'o' :: rest =>
      !(rest.takeWhile isPySpace).isEmpty &&
        ['i', 's'].isPrefixOf (rest.dropWhile isPySpace)
  | _ => false

/-- Regex search for `who\s+is`. -/
def hasWhoIs : List Char → Bool
  | [] => false
  | c :: rest => whoIsAt (c :: rest) || hasWhoIs rest

/-- Occurrence of `20\d{2}` starting at the head of the list. -/
def year20At : List Char → Bool
  | '2' :: '0' :: c :: d :: _ => c.isDigit && d.isDigit
  | _ => false

/-- Regex search for `20\d{2}`. -/
def hasYear20 : List Char → Bool
  | [] => false
  | c :: rest => year20At (c :: rest) || hasYear20 rest

/-- Word-boundary-delimited occurrence of `w` at the head position:
`\b w \b` where every alternative of `AMBIGUOUS` starts and ends with a
word character, so `\b` means "preceding/following character absent or not
a word character". -/
def wordBoundedAt (w : List Char) (prev : Option Char) (s : List Char) : Bool :=
  w.isPrefixOf s &&
  (match prev with | none => true | some c => !isWordChar c) &&
  (match s.drop w.length with | [] => true | d :: _ => !isWordChar d)

/-- Scan for a word-bounded occurrence, tracking the previous character. -/
def hasWordAux (w : List Char) : Option Char → List Char → Bool
  | _, [] => false
  | prev, c :: rest => wordBoundedAt w prev (c :: rest) || hasWordAux w (some c) rest

/-- Regex search for `\b w \b`. -/
def hasBoundedWord (w : List Char) (s : List Char) : Bool :=
  hasWordAux w none s

/-- Plain-substring alternatives of `FRESH_WORDS` (the regex alternation
of literals plus `who\s+is` and `20\d{2}`; patterns and the lowercased
text make `re.IGNORECASE` moot). -/
def freshPlain : List (List Char) :=
  ["today", "latest", "price", "pricing", "schedule", "release", "news",
   "update", "policy", "changelog", "version", "deprecat", "breaking"].map
    String.toList

/-- Test `has(FRESH_WORDS, p)`. -/
def hasFresh (p : List Char) : Bool :=
  freshPlain.any (fun w => containsSub w p) || hasWhoIs p || hasYear20 p

/-- Alternatives of `COMPLEX_VERBS` (all plain substrings). -/
def complexPlain : List (List Char) :=
  ["implement", "scaffold", "integrate", "deploy", "refactor", "migrate",
   "benchmark", "write tests", "generate project", "create pr", "scrape",
   "automate", "pipeline", "dataset"].map String.toList

/-- Test `has(COMPLEX_VERBS, p)`. -/
def hasComplex (p : List Char) : Bool :=
  complexPlain.any (fun w => containsSub w p)

/-- Word alternatives of `AMBIGUOUS` (each `\b`-delimited). -/
def ambiguousWords : List (List Char) :=
  ["best", "cheapest", "fastest", "quickest", "near me", "for my use case",
   "recommend"].map String.toList

/-- Test `has(AMBIGUOUS, p)`. -/
def hasAmbiguous (p : List Char) : Bool :=
  ambiguousWords.any (fun w => hasBoundedWord w p)

/- ### `score` and `explain` (`packages/core/routing/router.py`) -/

/-- Raw bonus accumulators of `score` before the sigmoid, on the
lowercased prompt: the dict `s` after the five `if` blocks (keys in
insertion order web, agent, ask, direct). -/
def rawScores (p : List Char) : List (String × ℚ) :=
  let web : ℚ :=
    (if hasFresh p then (1.2 : ℚ) else 0) +
    (if containsSub ("how much".toList) p ∨ containsSub ("compare".toList) p
      then (0.4 : ℚ) else 0)
  let agent : ℚ :=
    if hasComplex p ∨ containsSub ("step-by-step".toList) p ∨
        2 ≤ countSub ('\n' :: '-' :: ' ' :: []) p
      then (1.1 : ℚ) else 0
  let ask : ℚ :=
    if hasAmbiguous p ∨ containsSub ("not sure".toList) p ∨
        (containsSub ("recommend".toList) p ∧
          ¬ containsSub ("budget".toList) p)
      then (0.9 : ℚ) else 0
  let direct : ℚ :=
    if p.length < 280 ∧ countSub ("?".toList) p = 1 ∧
        ¬ hasFresh p ∧ ¬ hasComplex p
      then (0.9 : ℚ) else 0
  [("web", web), ("agent", agent), ("ask", ask), ("direct", direct)]

/-- Logistic squashing `1 / (1 + e^(-x))`. -/
noncomputable def sigmoid (x : ℝ) : ℝ := 1 / (1 + Real.exp (-x))

/-- Python `weights.get(k, 1.0)`. -/
def wget (w : String → Option ℝ) (k : String) : ℝ := (w k).getD 1

/-- Dict comprehension of `score`:
`{k: _sigmoid(v) * weights.get(k, 1.0) for k, v in s.items()}`. -/
noncomputable def score (prompt : String) (w : String → Option ℝ) :
    List (String × ℝ) :=
  (rawScores (lowerL prompt)).map
    (fun kv => (kv.1, sigmoid (kv.2 : ℝ) * wget w kv.1))

/-- Reason-list builder shared by `explain`'s four condition blocks and its
fallback (lines 26–39 of router.py): one fixed string per triggered
condition, in this order; the fallback exactly when none triggered. -/
def reasonsOut (c1 c2 c3 c4 : Prop) [Decidable c1] [Decidable c2]
    [Decidable c3] [Decidable c4] : List String :=
  let r : List String :=
    (if c1 then ["Fresh/volatile info → web"] else []) ++
    (if c2 then ["Multi-step/tooling → agent"] else []) ++
    (if c3 then ["Underspecified → ask"] else []) ++
    (if c4 then ["Short Q → direct"] else [])
  if r = [] then ["No strong signals; direct or ask are safe defaults"] else r

/-- Function `explain(prompt)`: its four conditions on the lowercased
prompt are fresh, complex-or-"step-by-step" (without `score`'s bullet-list
clause), the `AMBIGUOUS` regex alone (without `score`'s "not sure" /
"recommend" clauses), and short-single-question-not-fresh (without
`score`'s not-complex clause). -/
def explain (prompt : String) : List String :=
  let p := lowerL prompt
  reasonsOut (hasFresh p)
    (hasComplex p ∨ containsSub ("step-by-step".toList) p)
    (hasAmbiguous p)
    (p.length < 280 ∧ countSub ("?".toList) p = 1 ∧ ¬ hasFresh p)

/- ### C1: bounds of `score` -/

theorem sigmoid_pos (x : ℝ) : 0 < sigmoid x := by
  unfold sigmoid
  positivity

theorem sigmoid_lt_one (x : ℝ) : sigmoid x < 1 := by
  unfold sigmoid
  rw [div_lt_one (by positivity)]
  linarith [Real.exp_pos (-x)]

theorem sigmoid_zero : sigmoid 0 = 1 / 2 := by
  unfold sigmoid
  rw [neg_zero, Real.exp_zero]
  norm_num

theorem alookup_map_snd {β γ : Type} (g : String → β → γ)
    (l : List (String × β)) (k : String) :
    alookup k (l.map (fun kv => (kv.1, g kv.1 kv.2))) =
      (alookup k l).map (g k) := by
  induction l with
  | nil => rfl
  | cons a rest ih =>
      by_cases ha : a.1 = k
      · simp only [List.map_cons, alookup]
        rw [if_pos ha, if_pos ha, ha]
        rfl
      · simp only [List.map_cons, alookup]
        rw [if_neg ha, if_neg ha]
        exact ih

/-- C1: for every prompt and weights positive on the four channels,
`score` returns exactly the four channels in order; every value is
strictly positive and at most the channel's weight (post-sigmoid in
(0,1)); and a channel with raw accumulator 0 scores exactly half its
weight. -/
theorem score_spec (prompt : String) (w : String → Option ℝ)
    (hw : ∀ c ∈ channels, 0 < wget w c) :
    ((score prompt w).map Prod.fst = channels) ∧
    (∀ kv ∈ score prompt w, 0 < kv.2 ∧ kv.2 ≤ wget w kv.1) ∧
    (∀ k : String, alookup k (rawScores (lowerL prompt)) = some 0 →
      alookup k (score prompt w) = some (wget w k / 2)) := by
  have hbound : ∀ (v : ℚ) (k : String), k ∈ channels →
      0 < sigmoid (v : ℝ) * wget w k ∧ sigmoid (v : ℝ) * wget w k ≤ wget w k := by
    intro v k hk
    have hwk := hw k hk
    refine ⟨mul_pos (sigmoid_pos _) hwk, ?_⟩
    calc sigmoid (v : ℝ) * wget w k ≤ 1 * wget w k :=
          mul_le_mul_of_nonneg_right (le_of_lt (sigmoid_lt_one _))
            (le_of_lt hwk)
      _ = wget w k := one_mul _
  refine ⟨rfl, ?_, ?_⟩
  · intro kv hkv
    simp only [score, rawScores, List.map_cons, List.map_nil, List.mem_cons,
      List.not_mem_nil, or_false] at hkv
    rcases hkv with h | h | h | h <;> subst h <;>
      exact hbound _ _ (by simp [channels])
  · intro k hk0
    have hmap : alookup k (score prompt w) =
        (alookup k (rawScores (lowerL prompt))).map
          (fun (v : ℚ) => sigmoid (v : ℝ) * wget w k) :=
      alookup_map_snd (fun (k : String) (v : ℚ) => sigmoid (v : ℝ) * wget w k)
        (rawScores (lowerL prompt)) k
    rw [hmap, hk0]
    show some (sigmoid ((0 : ℚ) : ℝ) * wget w k) = some (wget w k / 2)
    rw [Rat.cast_zero, sigmoid_zero]
    congr 1
    ring

/-- Witness for C1 at a concrete prompt and the default weights. -/
theorem score_spec_witness :
    (∀ c ∈ channels, 0 < wget (fun _ => none) c) ∧
    ((score "hello" (fun _ => none)).map Prod.fst = channels) := by
  have hw : ∀ c ∈ channels, 0 < wget (fun _ => none) c := by
    intro c hc
    norm_num [wget]
  exact ⟨hw, (score_spec "hello" (fun _ => none) hw).1⟩

/- ### C8: `explain` versus the Scorer's bonus conditions -/

theorem reasonsOut_spec (c1 c2 c3 c4 : Prop) [Decidable c1] [Decidable c2]
    [Decidable c3] [Decidable c4] :
    ("Fresh/volatile info → web" ∈ reasonsOut c1 c2 c3 c4 ↔ c1) ∧
    ("Multi-step/tooling → agent" ∈ reasonsOut c1 c2 c3 c4 ↔ c2) ∧
    ("Underspecified → ask" ∈ reasonsOut c1 c2 c3 c4 ↔ c3) ∧
    ("Short Q → direct" ∈ reasonsOut c1 c2 c3 c4 ↔ c4) ∧
    ("No strong signals; direct or ask are safe defaults" ∈
        reasonsOut c1 c2 c3 c4 ↔ (¬ c1 ∧ ¬ c2 ∧ ¬ c3 ∧ ¬ c4)) ∧
    reasonsOut c1 c2 c3 c4 ≠ [] ∧
    (reasonsOut c1 c2 c3 c4).Sublist
      ["Fresh/volatile info → web", "Multi-step/tooling → agent",
       "Underspecified → ask", "Short Q → direct",
       "No strong signals; direct or ask are safe defaults"] := by
  by_cases h1 : c1 <;> by_cases h2 : c2 <;> by_cases h3 : c3 <;>
    by_cases h4 : c4 <;>
    refine ⟨?_, ?_, ?_, ?_, ?_, ?_, ?_⟩ <;>
    simp [reasonsOut, h1, h2, h3, h4]

/-- C8 (amended): `explain` emits each fixed-text reason `iff` its own
condition holds — fresh→web as the Scorer, but agent without the Scorer's
bullet-list clause, ask from the `AMBIGUOUS` regex alone without the
Scorer's "not sure"/"recommend" clauses, and direct without the Scorer's
not-complex clause — in the fixed order, with the single fallback reason
`iff` none of the four trigger. -/
theorem explain_spec (prompt : String) :
    ("Fresh/volatile info → web" ∈ explain prompt ↔
      hasFresh (lowerL prompt) = true) ∧
    ("Multi-step/tooling → agent" ∈ explain prompt ↔
      (hasComplex (lowerL prompt) = true ∨
        containsSub ("step-by-step".toList) (lowerL prompt) = true)) ∧
    ("Underspecified → ask" ∈ explain prompt ↔
      hasAmbiguous (lowerL prompt) = true) ∧
    ("Short Q → direct" ∈ explain prompt ↔
      ((lowerL prompt).length < 280 ∧
        countSub ("?".toList) (lowerL prompt) = 1 ∧
        ¬ hasFresh (lowerL prompt) = true)) ∧
    ("No strong signals; direct or ask are safe defaults" ∈ explain prompt ↔
      (¬ hasFresh (lowerL prompt) = true ∧
        ¬ (hasComplex (lowerL prompt) = true ∨
          containsSub ("step-by-step".toList) (lowerL prompt) = true) ∧
        ¬ hasAmbiguous (lowerL prompt) = true ∧
        ¬ ((lowerL prompt).length < 280 ∧
          countSub ("?".toList) (lowerL prompt) = 1 ∧
          ¬ hasFresh (lowerL prompt) = true))) ∧
    explain prompt ≠ [] ∧
    (explain prompt).Sublist
      ["Fresh/volatile info → web", "Multi-step/tooling → agent",
       "Underspecified → ask", "Short Q → direct",
       "No strong signals; direct or ask are safe defaults"] :=
  reasonsOut_spec (hasFresh (lowerL prompt))
    (hasComplex (lowerL prompt) ∨
      containsSub ("step-by-step".toList) (lowerL prompt))
    (hasAmbiguous (lowerL prompt))
    ((lowerL prompt).length < 280 ∧
      countSub ("?".toList) (lowerL prompt) = 1 ∧
      ¬ hasFresh (lowerL prompt))

/-- C8 counterexample: for the prompt "not sure" the Scorer's ask bonus
condition holds (the "not sure" substring clause) and the raw ask
accumulator is 0.9, yet `explain` emits no ask reason — only the fallback —
so `explain` does not test the same four conditions as the Scorer. -/
theorem explain_cex :
    containsSub ("not sure".toList) (lowerL "not sure") = true ∧
    alookup "ask" (rawScores (lowerL "not sure")) = some 0.9 ∧
    "Underspecified → ask" ∉ explain "not sure" ∧
    explain "not sure" = ["No strong signals; direct or ask are safe defaults"] := by
  have hcond : (hasAmbiguous (lowerL "not sure") = true ∨
      containsSub ("not sure".toList) (lowerL "not sure") = true ∨
      (containsSub ("recommend".toList) (lowerL "not sure") = true ∧
        ¬ containsSub ("budget".toList) (lowerL "not sure") = true)) :=
    Or.inr (Or.inl (by decide))
  refine ⟨by decide, ?_, by decide, by decide⟩
  have heq : alookup "ask" (rawScores (lowerL "not sure")) =
      (if (hasAmbiguous (lowerL "not sure") ∨
          containsSub ("not sure".toList) (lowerL "not sure") ∨
          (containsSub ("recommend".toList) (lowerL "not sure") ∧
            ¬ containsSub ("budget".toList) (lowerL "not sure")))
        then (0.9 : ℚ) else 0) := rfl
  rw [heq, if_pos hcond]

end PromptGo
